import Mathlib

/-!
Verification development for merhametsize/follow-scraper.

The embedding follows the two source files:

* `src/follow_scraper.py` — `fetch_followers` (one page fetch, outcome
  classification), `scrape_single_cycle` (one pagination traversal), and the
  master loop in `main` (cycle merging, empty-cycle abort, checkpointing).
* `src/diff.py` — `load_usernames` (snapshot loader) and the set arithmetic
  of `main` (lost / gained / net change).

Effectful pieces (the HTTP transport, the file system, `random` delays) are
modelled by passing their observable outcomes explicitly: the transport is a
list of per-request results, the checkpoint file is a field of the loop
state, and the delays do not influence any data, so they are omitted.
-/

/-- Parsed JSON body of one follower-API response, in the exact shape the
scraper consumes it: `data.get('status')`, the `username` field of each entry
of `data.get('users', [])`, the truthiness of `data.get('has_more')`, and
`data.get('next_max_id')` (absent key modelled as `none`). -/
structure PageData where
  status : Option String
  users : List String
  has_more : Bool
  next_max_id : Option String
deriving DecidableEq

/-- Observable outcome of the one `requests.get` call made by
`fetch_followers`: either a transport-level failure
(`requests.exceptions.RequestException`, which includes timeouts and
connection errors), or a response carrying its HTTP status code and, when the
body is JSON-parseable, the parsed page data (`none` body models
`json.JSONDecodeError`). -/
inductive HttpResult where
  | requestError : HttpResult
  | response (statusCode : Nat) (body : Option PageData) : HttpResult
deriving DecidableEq

/-- Model of `fetch_followers` (src/follow_scraper.py, lines 102-126).
`response.raise_for_status()` raises `HTTPError` exactly for status codes in
400-599; that exception and `RequestException` are both caught and turned
into `None`, as is a body that fails JSON parsing. Otherwise the parsed JSON
is returned unchanged — no field of it is inspected here. -/
def fetch_followers (r : HttpResult) : Option PageData :=
  match r with
  | .requestError => none
  | .response code body => if 400 ≤ code ∧ code < 600 then none else body

/-- URL built by `fetch_followers` (line 108):
`f'{base_url}?count=25&max_id={max_id or ''}&search_surface=follow_list_page'`.
`max_id or ''` maps both `None` and `''` to the empty string. -/
def buildUrl (base_url : String) (max_id : Option String) : String :=
  base_url ++ "?count=25&max_id=" ++ max_id.getD "" ++ "&search_surface=follow_list_page"

/-- Model of the loop body of `scrape_single_cycle` (lines 130-172), with the
transport represented as the list of per-request outcomes, in request order.
The accumulated cycle set and the list of requested URLs are threaded
explicitly; the cursor starts at `none` and is replaced by
`data.get('next_max_id')` after each successful page that reports more data.
An exhausted outcome list ends the traversal with the set gathered so far. -/
def scrapeGo (base_url : String) (cursor : Option String) (acc : Finset String)
    (urls : List String) : List HttpResult → Finset String × List String
  | [] => (acc, urls)
  | o :: os =>
    match fetch_followers o with
    | none => (acc, urls ++ [buildUrl base_url cursor])
    | some d =>
      if d.status = some "ok" then
        if d.has_more then
          scrapeGo base_url d.next_max_id (acc ∪ d.users.toFinset)
            (urls ++ [buildUrl base_url cursor]) os
        else (acc ∪ d.users.toFinset, urls ++ [buildUrl base_url cursor])
      else (acc, urls ++ [buildUrl base_url cursor])

/-- `scrape_single_cycle` (lines 130-172): run one full pagination cycle from
a `None` cursor and an empty set, returning the unique usernames found. -/
def scrape_single_cycle (base_url : String) (responses : List HttpResult) : Finset String :=
  (scrapeGo base_url none ∅ [] responses).1

/-- The outcome used to feed one successfully fetched, JSON-parseable page
into the cycle runner: HTTP 200 with the given parsed body. -/
def okResponse (d : PageData) : HttpResult :=
  HttpResult.response 200 (some d)

/-- Specification-side description of the pages a cycle successfully
processes: the pages consumed while each fetch parses and reports an "ok"
status, stopping after the first page whose `has_more` is false, at the
first fetch failure, or at the first non-"ok" page. -/
def processedOk : List HttpResult → List PageData
  | [] => []
  | o :: os =>
    match fetch_followers o with
    | none => []
    | some d =>
      if d.status = some "ok" then
        if d.has_more then d :: processedOk os else [d]
      else []

/-- Union of the identifiers of a list of pages. -/
def unionUsers : List PageData → Finset String
  | [] => ∅
  | d :: ds => d.users.toFinset ∪ unionUsers ds

/-- Merge of one cycle's set into the master set, line 223:
`master_unique_followers.update(current_cycle_set)`. -/
def merge (s c : Finset String) : Finset String := s ∪ c

/-- `sorted(list(m))`, the line order used for every checkpoint write
(lines 238 and 252). -/
def sortedLines (m : Finset String) : List String :=
  m.sort (· ≤ ·)

/-- Characters of the checkpoint file produced by
`f.write('\n'.join(sorted(list(master))))` (lines 238-241 and 252-256):
the sorted identifiers joined by single newline characters. `joinChars` is
the newline join at the character level. -/
def joinChars : List (List Char) → List Char
  | [] => []
  | [l] => l
  | l :: l₂ :: ls => l ++ '\n' :: joinChars (l₂ :: ls)

/-- Checkpoint / snapshot file content for a master set. -/
def writeMaster (m : Finset String) : List Char :=
  joinChars ((sortedLines m).map String.data)

/-- State of the master loop of `main` (lines 209-248): the master set, the
cycle counter, and the checkpoint file content (`none` until first written). -/
structure RunState where
  master : Finset String
  cycleNumber : Nat
  file : Option (List Char)
deriving DecidableEq

/-- How a (simulated) run of the master loop ends: normal success (target
reached, final output written), the `sys.exit(1)` sustained-failure abort of
line 219, or exhaustion of the supplied cycle results while the loop would
continue. -/
inductive RunOutcome where
  | success (st : RunState) : RunOutcome
  | aborted (st : RunState) : RunOutcome
  | exhausted (st : RunState) : RunOutcome
deriving DecidableEq

/-- True exactly for the sustained-failure abort outcome. -/
def isAborted : RunOutcome → Bool
  | .aborted _ => true
  | _ => false

/-- Model of the master loop of `main` (lines 209-256), consuming the list of
cycle results in order. Per iteration (matching the source order): increment
the cycle counter; if the cycle set is empty, `cycle_number > 5` and the
master set is empty, exit via `sys.exit(1)` without touching the file;
otherwise merge, stop successfully when the target is met (the final-output
write after the loop then runs), else write the checkpoint and continue.
The success constructor always carries the file as written by the
final-output block (lines 252-256). -/
def runLoop (target : Nat) (st : RunState) (cycles : List (Finset String)) : RunOutcome :=
  if st.master.card < target then
    match cycles with
    | [] => RunOutcome.exhausted st
    | c :: rest =>
      if c = ∅ ∧ 5 < st.cycleNumber + 1 ∧ st.master.card = 0 then
        RunOutcome.aborted ⟨st.master, st.cycleNumber + 1, st.file⟩
      else if target ≤ (merge st.master c).card then
        RunOutcome.success
          ⟨merge st.master c, st.cycleNumber + 1, some (writeMaster (merge st.master c))⟩
      else
        runLoop target
          ⟨merge st.master c, st.cycleNumber + 1, some (writeMaster (merge st.master c))⟩ rest
  else
    RunOutcome.success ⟨st.master, st.cycleNumber, some (writeMaster st.master)⟩

/-- The state `main` starts from: empty master set, `cycle_number = 0`, no
checkpoint file written yet. -/
def initState : RunState :=
  ⟨∅, 0, none⟩

/-- The character class Python's `str.strip()` removes: the code points for
which `str.isspace()` is true — tab through carriage return (09-0D), the
file/group/record/unit separators (1C-1F), space (20), next line (85),
no-break space (A0), ogham space mark (1680), the Unicode space separators
(2000-200A, 202F, 205F, 3000) and the line/paragraph separators (2028,
2029). -/
def pyIsSpace (c : Char) : Bool :=
  c.toNat = 0x09 || c.toNat = 0x0a || c.toNat = 0x0b || c.toNat = 0x0c || c.toNat = 0x0d ||
  (0x1c ≤ c.toNat && c.toNat ≤ 0x1f) || c.toNat = 0x20 || c.toNat = 0x85 || c.toNat = 0xa0 ||
  c.toNat = 0x1680 || (0x2000 ≤ c.toNat && c.toNat ≤ 0x200a) ||
  c.toNat = 0x2028 || c.toNat = 0x2029 || c.toNat = 0x202f || c.toNat = 0x205f || c.toNat = 0x3000

/-- Python `str.strip()` on the characters of one line: leading and trailing
whitespace removed, with whitespace as `str.isspace()` defines it. -/
def stripChars (cs : List Char) : List Char :=
  ((cs.dropWhile pyIsSpace).reverse.dropWhile pyIsSpace).reverse

/-- Universal-newline translation performed by Python's text-mode file
reading: each `'\r\n'` pair and each lone `'\r'` in the decoded stream
becomes a single `'\n'` before the stream is split into lines. -/
def translateNewlines : List Char → List Char
  | [] => []
  | [c] => if c = '\r' then ['\n'] else [c]
  | c :: c₂ :: cs =>
    if c = '\r' then
      if c₂ = '\n' then '\n' :: translateNewlines cs
      else '\n' :: translateNewlines (c₂ :: cs)
    else c :: translateNewlines (c₂ :: cs)

/-- Splitting translated file content on `'\n'`, the character-level
counterpart of Python's line iteration after universal-newline translation
(each Python line keeps its trailing newline, which `strip()` removes, so
the two agree after stripping). -/
def splitNL : List Char → List (List Char)
  | [] => [[]]
  | c :: cs =>
    match splitNL cs with
    | [] => [[c]]
    | l :: ls => if c = '\n' then [] :: l :: ls else (c :: l) :: ls

/-- Model of `load_usernames` (src/diff.py, lines 11-17):
`{line.strip() for line in f if line.strip()}` — text-mode reading
translates universal newlines, the stream is split into lines, every line
is stripped, blank results are discarded, and the rest are collected into a
set. -/
def load_usernames (content : List Char) : Finset String :=
  ((((splitNL (translateNewlines content)).map stripChars).filter
    (fun l => !l.isEmpty)).map String.mk).toFinset

/-- Report data computed by `main` of src/diff.py (lines 44-55):
`lost_followers = followers_old - followers_new`,
`new_followers = followers_new - followers_old`,
`net_change = new_count - old_count`. -/
structure DiffReport where
  lost_followers : Finset String
  new_followers : Finset String
  net_change : Int
deriving DecidableEq

/-- The set arithmetic of src/diff.py `main` as a pure function of the two
loaded sets. -/
def computeDiff (followers_old followers_new : Finset String) : DiffReport :=
  { lost_followers := followers_old \ followers_new
    new_followers := followers_new \ followers_old
    net_change := (followers_new.card : Int) - (followers_old.card : Int) }

/-- C5: for every pair of identifier sets, the diff computes
`lost = old − new`, `gained = new − old` and `net_change = |new| − |old|`;
the computation is a pure function of its arguments, so neither input is
modified. -/
theorem computeDiff_spec (oldS newS : Finset String) :
    (∀ u, u ∈ (computeDiff oldS newS).lost_followers ↔ u ∈ oldS ∧ u ∉ newS) ∧
    (∀ u, u ∈ (computeDiff oldS newS).new_followers ↔ u ∈ newS ∧ u ∉ oldS) ∧
    (computeDiff oldS newS).net_change = (newS.card : Int) - (oldS.card : Int) := by
  refine ⟨?_, ?_, rfl⟩ <;> intro u <;> simp [computeDiff, Finset.mem_sdiff]

/-- C7: across any sequence of cycle merges the master set only grows —
it stays a subset of every later value, its size is non-decreasing — and
merging an empty cycle set is the identity. -/
theorem master_merge_monotone (s : Finset String) (cycles : List (Finset String)) :
    s ⊆ cycles.foldl merge s ∧ s.card ≤ (cycles.foldl merge s).card ∧ merge s ∅ = s := by
  have hsub : ∀ (cs : List (Finset String)) (t : Finset String), t ⊆ cs.foldl merge t := by
    intro cs
    induction cs with
    | nil => intro t; exact Finset.Subset.refl t
    | cons c cs ih =>
      intro t
      exact Finset.Subset.trans Finset.subset_union_left (ih (merge t c))
  exact ⟨hsub cycles s, Finset.card_le_card (hsub cycles s), Finset.union_empty s⟩

theorem scrapeGo_fst (base : String) :
    ∀ (os : List HttpResult) (cursor : Option String) (acc : Finset String) (urls : List String),
      (scrapeGo base cursor acc urls os).1 = acc ∪ unionUsers (processedOk os) := by
  intro os
  induction os with
  | nil => intro cursor acc urls; simp [scrapeGo, processedOk, unionUsers]
  | cons o os ih =>
    intro cursor acc urls
    cases hfo : fetch_followers o with
    | none => simp [scrapeGo, processedOk, hfo, unionUsers]
    | some d =>
      by_cases hok : d.status = some "ok"
      · by_cases hmore : d.has_more = true
        · simp [scrapeGo, processedOk, hfo, hok, hmore, unionUsers, ih, Finset.union_assoc]
        · simp [scrapeGo, processedOk, hfo, hok, hmore, unionUsers]
      · simp [scrapeGo, processedOk, hfo, hok, unionUsers]

theorem fetch_okResponse (d : PageData) : fetch_followers (okResponse d) = some d := by
  simp [fetch_followers, okResponse]

theorem processedOk_ok_map (l : List HttpResult) :
    ∀ (ds : List PageData), (∀ d ∈ ds, d.status = some "ok" ∧ d.has_more = true) →
      processedOk (ds.map okResponse ++ l) = ds ++ processedOk l := by
  intro ds
  induction ds with
  | nil => intro _; simp
  | cons d ds ih =>
    intro h
    obtain ⟨hd, hds⟩ := List.forall_mem_cons.mp h
    simp [processedOk, fetch_okResponse, hd.1, hd.2, ih hds]

theorem unionUsers_append (l₁ l₂ : List PageData) :
    unionUsers (l₁ ++ l₂) = unionUsers l₁ ∪ unionUsers l₂ := by
  induction l₁ with
  | nil => simp [unionUsers]
  | cons d ds ih => simp [unionUsers, ih, Finset.union_assoc]

/-- C1: the cycle set returned by `scrape_single_cycle` is the union of the
identifiers of all successfully processed pages; in particular, when pages
1..k-1 succeed with more data pending and the fetch of page k fails, the
returned set is the union of pages 1..k-1 — returned as a value, never
raised, since the runner is a total function into sets. -/
theorem scrape_single_cycle_union (base : String) (responses : List HttpResult) :
    scrape_single_cycle base responses = unionUsers (processedOk responses) ∧
    ∀ (ds : List PageData) (o : HttpResult) (rest : List HttpResult),
      (∀ d ∈ ds, d.status = some "ok" ∧ d.has_more = true) →
      fetch_followers o = none →
      scrape_single_cycle base (ds.map okResponse ++ o :: rest) = unionUsers ds := by
  constructor
  · rw [scrape_single_cycle, scrapeGo_fst]
    exact Finset.empty_union _
  · intro ds o rest hds ho
    rw [scrape_single_cycle, scrapeGo_fst, processedOk_ok_map _ ds hds]
    have hfail : processedOk (o :: rest) = [] := by
      simp [processedOk, ho]
    rw [hfail, List.append_nil, Finset.empty_union]

/-- Witness for C1 applied to two concrete "ok" pages followed by a
transport failure: the cycle set is exactly the union of the two pages. -/
theorem scrape_single_cycle_union_witness :
    (∀ d ∈ [(⟨some "ok", ["ada", "bob"], true, some "c1"⟩ : PageData),
            ⟨some "ok", ["bob", "eve"], true, some "c2"⟩],
        d.status = some "ok" ∧ d.has_more = true) ∧
    fetch_followers HttpResult.requestError = none ∧
    scrape_single_cycle "base"
        ([(⟨some "ok", ["ada", "bob"], true, some "c1"⟩ : PageData),
          ⟨some "ok", ["bob", "eve"], true, some "c2"⟩].map okResponse
          ++ HttpResult.requestError :: []) =
      unionUsers [(⟨some "ok", ["ada", "bob"], true, some "c1"⟩ : PageData),
          ⟨some "ok", ["bob", "eve"], true, some "c2"⟩] :=
  ⟨by decide, rfl,
    (scrape_single_cycle_union "base" []).2 _ HttpResult.requestError [] (by decide) rfl⟩

/-- C4 counterexample: a 2xx response whose body parses but reports status
"fail" is still returned as a success by `fetch_followers` — the "ok" check
is not performed there, refuting "Success exactly when ... reports an ok
status" as a statement about the Page Fetcher. -/
theorem fetch_followers_success_without_ok :
    fetch_followers (HttpResult.response 200 (some ⟨some "fail", ["eve"], false, none⟩)) =
      some ⟨some "fail", ["eve"], false, none⟩ ∧
    (⟨some "fail", ["eve"], false, none⟩ : PageData).status ≠ some "ok" := by
  constructor
  · simp [fetch_followers]
  · decide

/-- C4 (amended): `fetch_followers` returns a parsed page exactly when the
transport call succeeds, the HTTP status code is not an error code in
400-599, and the body parses as structured data — the reported status field
is not consulted; the "ok"-status check is performed by the cycle runner,
which ends the cycle, keeping only the data gathered so far, when a fetched
page's status is not "ok". -/
theorem fetch_followers_success_iff :
    (∀ r : HttpResult, (∃ d, fetch_followers r = some d) ↔
      ∃ code d, r = HttpResult.response code (some d) ∧ ¬(400 ≤ code ∧ code < 600)) ∧
    ∀ (base : String) (cursor : Option String) (acc : Finset String) (urls : List String)
      (d : PageData) (os : List HttpResult), d.status ≠ some "ok" →
      scrapeGo base cursor acc urls (HttpResult.response 200 (some d) :: os) =
        (acc, urls ++ [buildUrl base cursor]) := by
  constructor
  · intro r
    cases r with
    | requestError => simp [fetch_followers]
    | response code body =>
      by_cases hc : 400 ≤ code ∧ code < 600
      · simp only [fetch_followers, if_pos hc]
        constructor
        · rintro ⟨d, hd⟩; exact absurd hd (by simp)
        · rintro ⟨c, d, h1, h2⟩
          cases h1
          exact absurd hc h2
      · cases body with
        | none => simp [fetch_followers, hc]
        | some d =>
          simp only [fetch_followers, if_neg hc]
          constructor
          · intro _; exact ⟨code, d, rfl, hc⟩
          · intro _; exact ⟨d, rfl⟩
  · intro base cursor acc urls d os hne
    have hfetch : fetch_followers (HttpResult.response 200 (some d)) = some d := by
      simp [fetch_followers]
    simp [scrapeGo, hfetch, hne]

/-- Witness for C4's cycle-runner conjunct: a parsed page with status "fail"
ends the cycle with the accumulated set unchanged. -/
theorem fetch_followers_success_iff_witness :
    (⟨some "fail", [], false, none⟩ : PageData).status ≠ some "ok" ∧
    scrapeGo "base" none ∅ []
        (HttpResult.response 200 (some ⟨some "fail", [], false, none⟩) :: []) =
      (∅, [] ++ [buildUrl "base" none]) :=
  ⟨by decide,
    fetch_followers_success_iff.2 "base" none ∅ [] ⟨some "fail", [], false, none⟩ []
      (by decide)⟩

/-- C10: a successful "ok" page with `has_more = true` but no `next_max_id`
does not end the cycle: the runner continues with an absent cursor, so the
next request is issued against the first-page URL (empty `max_id`
parameter), i.e. pagination restarts from the beginning. -/
theorem missing_cursor_restarts (base : String) (d : PageData) (rest : List HttpResult)
    (acc : Finset String) (urls : List String)
    (hok : d.status = some "ok") (hmore : d.has_more = true)
    (hcur : d.next_max_id = none) :
    scrapeGo base none acc urls (okResponse d :: rest) =
      scrapeGo base none (acc ∪ d.users.toFinset) (urls ++ [buildUrl base none]) rest ∧
    buildUrl base none = base ++ ("?count=25&max_id=" ++ "&search_surface=follow_list_page") := by
  constructor
  · simp only [scrapeGo, fetch_okResponse, hok, if_true, hmore, if_true, hcur]
  · apply String.ext
    simp only [buildUrl, String.data_append, List.append_assoc]
    exact congrArg (base.data ++ ·) rfl

/-- Witness for C10 at a concrete cursorless page. -/
theorem missing_cursor_restarts_witness :
    ((⟨some "ok", ["zoe"], true, none⟩ : PageData).status = some "ok" ∧
      (⟨some "ok", ["zoe"], true, none⟩ : PageData).has_more = true ∧
      (⟨some "ok", ["zoe"], true, none⟩ : PageData).next_max_id = none) ∧
    (scrapeGo "base" none ∅ [] (okResponse ⟨some "ok", ["zoe"], true, none⟩ :: []) =
        scrapeGo "base" none (∅ ∪ (["zoe"] : List String).toFinset)
          ([] ++ [buildUrl "base" none]) [] ∧
      buildUrl "base" none =
        "base" ++ ("?count=25&max_id=" ++ "&search_surface=follow_list_page")) :=
  ⟨⟨rfl, rfl, rfl⟩,
    missing_cursor_restarts "base" ⟨some "ok", ["zoe"], true, none⟩ [] ∅ [] rfl rfl rfl⟩

theorem writeMaster_empty : writeMaster ∅ = [] := by
  simp only [writeMaster, sortedLines, Finset.sort_empty, List.map_nil, joinChars]

theorem runLoop_empty_cycle_step (target k : Nat) (f : Option (List Char))
    (rest : List (Finset String)) (htarget : 0 < target) (hk : k < 5) :
    runLoop target ⟨∅, k, f⟩ (∅ :: rest) = runLoop target ⟨∅, k + 1, some []⟩ rest := by
  rw [runLoop]
  have hcard : (∅ : Finset String).card < target := by simpa using htarget
  rw [if_pos hcard]
  have habort : ¬((∅ : Finset String) = ∅ ∧ 5 < k + 1 ∧ (∅ : Finset String).card = 0) := by
    rintro ⟨-, h5, -⟩; omega
  rw [if_neg habort]
  have hmerge : merge (∅ : Finset String) ∅ = ∅ := Finset.union_empty ∅
  have hdone : ¬target ≤ (merge (∅ : Finset String) ∅).card := by
    rw [hmerge]; simp only [Finset.card_empty]; omega
  rw [if_neg hdone, hmerge, writeMaster_empty]

/-- C2 counterexample: with a positive target, five consecutive empty cycles
from the empty initial state do not abort the run — the loop is still going
(here: out of simulated cycles, master empty, checkpoint file written empty),
because the abort test is `cycle_number > 5`, which is false at cycle 5. -/
theorem five_empty_cycles_no_abort :
    runLoop 1 initState (List.replicate 5 ∅) = RunOutcome.exhausted ⟨∅, 5, some []⟩ ∧
    isAborted (runLoop 1 initState (List.replicate 5 ∅)) = false := by
  have h : runLoop 1 initState (List.replicate 5 ∅) = RunOutcome.exhausted ⟨∅, 5, some []⟩ := by
    show runLoop 1 ⟨∅, 0, none⟩ (∅ :: ∅ :: ∅ :: ∅ :: ∅ :: []) = _
    rw [runLoop_empty_cycle_step 1 0 none _ Nat.one_pos (by omega),
      runLoop_empty_cycle_step 1 1 _ _ Nat.one_pos (by omega),
      runLoop_empty_cycle_step 1 2 _ _ Nat.one_pos (by omega),
      runLoop_empty_cycle_step 1 3 _ _ Nat.one_pos (by omega),
      runLoop_empty_cycle_step 1 4 _ _ Nat.one_pos (by omega),
      runLoop]
    norm_num
  exact ⟨h, by rw [h]; rfl⟩

/-- C2 (amended): the sustained-failure abort fires on the sixth consecutive
empty cycle while the master set is still empty (the source tests
`cycle_number > 5`), exiting via `sys.exit(1)` with no target-reached
success; after only five empty cycles the run continues. -/
theorem six_empty_cycles_abort (target : Nat) (htarget : 0 < target)
    (rest : List (Finset String)) :
    runLoop target initState (List.replicate 6 ∅ ++ rest) =
      RunOutcome.aborted ⟨∅, 6, some []⟩ := by
  show runLoop target ⟨∅, 0, none⟩ (∅ :: ∅ :: ∅ :: ∅ :: ∅ :: ∅ :: rest) = _
  rw [runLoop_empty_cycle_step target 0 none _ htarget (by omega),
    runLoop_empty_cycle_step target 1 _ _ htarget (by omega),
    runLoop_empty_cycle_step target 2 _ _ htarget (by omega),
    runLoop_empty_cycle_step target 3 _ _ htarget (by omega),
    runLoop_empty_cycle_step target 4 _ _ htarget (by omega),
    runLoop]
  have hcard : (∅ : Finset String).card < target := by simpa using htarget
  rw [if_pos hcard]
  have habort : (∅ : Finset String) = ∅ ∧ 5 < 5 + 1 ∧ (∅ : Finset String).card = 0 := by
    refine ⟨rfl, by omega, by simp⟩
  rw [if_pos habort]

/-- Witness for C2's amended theorem at target 1 and no further cycles. -/
theorem six_empty_cycles_abort_witness :
    0 < 1 ∧
    runLoop 1 initState (List.replicate 6 ∅ ++ []) = RunOutcome.aborted ⟨∅, 6, some []⟩ :=
  ⟨Nat.one_pos, six_empty_cycles_abort 1 Nat.one_pos []⟩

/-- The checkpoint property of a finished run: whenever the loop ends in
success or in the sustained-failure abort, the file content equals the
snapshot of the final master set. -/
def fileReflects : RunOutcome → Prop
  | .success st => st.file = some (writeMaster st.master)
  | .aborted st => st.file = some (writeMaster st.master)
  | .exhausted _ => True

theorem runLoop_fileReflects (cycles : List (Finset String)) :
    ∀ (target : Nat) (st : RunState),
      st.cycleNumber = 0 ∨ st.file = some (writeMaster st.master) →
      fileReflects (runLoop target st cycles) := by
  induction cycles with
  | nil =>
    intro target st hst
    rw [runLoop]
    by_cases h : st.master.card < target
    · rw [if_pos h]; trivial
    · rw [if_neg h]; rfl
  | cons c rest ih =>
    intro target st hst
    rw [runLoop]
    by_cases h : st.master.card < target
    · rw [if_pos h]
      by_cases habort : c = ∅ ∧ 5 < st.cycleNumber + 1 ∧ st.master.card = 0
      · rw [if_pos habort]
        have hcn : st.cycleNumber ≠ 0 := by omega
        have hfile : st.file = some (writeMaster st.master) := by
          rcases hst with h0 | hf
          · exact absurd h0 hcn
          · exact hf
        exact hfile
      · rw [if_neg habort]
        by_cases hdone : target ≤ (merge st.master c).card
        · rw [if_pos hdone]; rfl
        · rw [if_neg hdone]
          exact ih target _ (Or.inr rfl)
    · rw [if_neg h]; rfl

/-- C3: starting from the initial state, however the run ends — target
reached or sustained-failure abort — the checkpoint file holds exactly the
snapshot of the master set accumulated so far: the success path writes the
final output before returning, and the abort path exits only after at least
five completed iterations, each of which checkpointed the (then equal)
master set. -/
theorem run_ends_with_current_checkpoint (target : Nat) (cycles : List (Finset String)) :
    fileReflects (runLoop target initState cycles) :=
  runLoop_fileReflects cycles target initState (Or.inl rfl)

/-- C8: with `target_size = 0` the loop guard `len(master) < target` is
false immediately: the run ends successfully with zero cycles run (the
cycle counter is still 0), hence no page is ever fetched, and the final
output is written. -/
theorem runLoop_target_zero (cycles : List (Finset String)) :
    runLoop 0 initState cycles = RunOutcome.success ⟨∅, 0, some []⟩ := by
  rw [runLoop.eq_def]
  have h : ¬(initState.master.card < 0) := by omega
  rw [if_neg h]
  show RunOutcome.success ⟨∅, 0, some (writeMaster ∅)⟩ = _
  rw [writeMaster_empty]

theorem dropWhile_dropWhile_eq (p : Char → Bool) (l : List Char) :
    (l.dropWhile p).dropWhile p = l.dropWhile p := by
  induction l with
  | nil => rfl
  | cons c cs ih =>
    by_cases h : p c
    · simp [List.dropWhile_cons, h, ih]
    · simp [List.dropWhile_cons, h]

theorem dropWhile_head_false (p : Char → Bool) :
    ∀ (l : List Char) (b : Char) (t : List Char), l.dropWhile p = b :: t → p b = false := by
  intro l
  induction l with
  | nil => intro b t h; simp at h
  | cons a l ih =>
    intro b t h
    by_cases ha : p a
    · rw [List.dropWhile_cons, if_pos ha] at h
      exact ih b t h
    · rw [List.dropWhile_cons, if_neg ha] at h
      obtain ⟨rfl, -⟩ := List.cons.inj h
      exact Bool.eq_false_iff.mpr ha

theorem stripChars_prefix (l : List Char) :
    l.dropWhile pyIsSpace =
      stripChars l ++
        ((l.dropWhile pyIsSpace).reverse.takeWhile pyIsSpace).reverse := by
  rw [stripChars]
  have h := List.takeWhile_append_dropWhile (l := (l.dropWhile pyIsSpace).reverse)
    (p := pyIsSpace)
  calc l.dropWhile pyIsSpace
      = (l.dropWhile pyIsSpace).reverse.reverse := (List.reverse_reverse _).symm
    _ = (((l.dropWhile pyIsSpace).reverse.takeWhile pyIsSpace) ++
          ((l.dropWhile pyIsSpace).reverse.dropWhile pyIsSpace)).reverse := by
        rw [h]
    _ = _ := by rw [List.reverse_append]

theorem stripChars_idem (l : List Char) : stripChars (stripChars l) = stripChars l := by
  have h1 : (stripChars l).dropWhile pyIsSpace = stripChars l := by
    cases hCr : stripChars l with
    | nil => rfl
    | cons b t =>
      have hA := stripChars_prefix l
      rw [hCr] at hA
      have hb : pyIsSpace b = false :=
        dropWhile_head_false pyIsSpace l b _ (by rw [hA]; rfl)
      rw [List.dropWhile_cons, hb]
      simp
  have h2 : (stripChars l).reverse.dropWhile pyIsSpace = (stripChars l).reverse := by
    rw [stripChars, List.reverse_reverse]
    exact dropWhile_dropWhile_eq pyIsSpace _
  calc stripChars (stripChars l)
      = (((stripChars l).dropWhile pyIsSpace).reverse.dropWhile
          pyIsSpace).reverse := rfl
    _ = ((stripChars l).reverse.dropWhile pyIsSpace).reverse := by rw [h1]
    _ = (stripChars l).reverse.reverse := by rw [h2]
    _ = stripChars l := List.reverse_reverse _

theorem splitNL_ne_nil : ∀ (cs : List Char), splitNL cs ≠ [] := by
  intro cs
  induction cs with
  | nil => simp [splitNL]
  | cons c cs ih =>
    cases h : splitNL cs with
    | nil => exact absurd h ih
    | cons l ls =>
      rw [splitNL, h]
      by_cases hc : c = '\n' <;> simp [hc]

theorem splitNL_no_newline : ∀ (l : List Char), '\n' ∉ l → splitNL l = [l] := by
  intro l
  induction l with
  | nil => intro _; rfl
  | cons c cs ih =>
    intro h
    have hc : c ≠ '\n' := fun hc => h (hc ▸ List.mem_cons_self c cs)
    have hcs : '\n' ∉ cs := fun hm => h (List.mem_cons_of_mem c hm)
    rw [splitNL, ih hcs]
    simp [hc]

theorem splitNL_append_newline :
    ∀ (l cs : List Char), '\n' ∉ l → splitNL (l ++ '\n' :: cs) = l :: splitNL cs := by
  intro l
  induction l with
  | nil =>
    intro cs _
    rw [List.nil_append, splitNL]
    cases h : splitNL cs with
    | nil => exact absurd h (splitNL_ne_nil cs)
    | cons a as => simp
  | cons c l ih =>
    intro cs h
    have hc : c ≠ '\n' := fun hc => h (hc ▸ List.mem_cons_self c l)
    have hl : '\n' ∉ l := fun hm => h (List.mem_cons_of_mem c hm)
    rw [List.cons_append, splitNL, ih cs hl]
    simp [hc]

theorem splitNL_joinChars :
    ∀ (ls : List (List Char)), ls ≠ [] → (∀ l ∈ ls, '\n' ∉ l) →
      splitNL (joinChars ls) = ls := by
  intro ls
  induction ls with
  | nil => intro h _; exact absurd rfl h
  | cons l ls ih =>
    intro _ h
    cases ls with
    | nil =>
      rw [joinChars]
      exact splitNL_no_newline l (h l (List.mem_cons_self l []))
    | cons l₂ ls₂ =>
      rw [joinChars, splitNL_append_newline l _ (h l (List.mem_cons_self l _)),
        ih (by simp) (fun x hx => h x (List.mem_cons_of_mem l hx))]

/-- C9: every identifier produced by the Diff loader is nonempty and is
invariant under stripping — no leading or trailing whitespace survives.
Each line is stripped and blank results are discarded, so identifiers that
carry surrounding whitespace in the file are silently normalized rather than
preserved exactly (the witness loads " alice " as "alice"). -/
theorem load_usernames_normalized (content : List Char) (u : String)
    (hu : u ∈ load_usernames content) :
    u ≠ "" ∧ stripChars u.data = u.data := by
  rw [load_usernames, List.mem_toFinset] at hu
  obtain ⟨l, hl, rfl⟩ := List.mem_map.mp hu
  obtain ⟨hl1, hl2⟩ := List.mem_filter.mp hl
  obtain ⟨l₀, hl₀, rfl⟩ := List.mem_map.mp hl1
  constructor
  · intro he
    have hnil : stripChars l₀ = [] := congrArg String.data he
    rw [hnil] at hl2
    simp at hl2
  · show stripChars (stripChars l₀) = stripChars l₀
    exact stripChars_idem l₀

/-- Witness for C9 on concrete file content: " alice \nbob\n" yields the
identifier "alice", stripped of its surrounding spaces. -/
theorem load_usernames_normalized_witness :
    "alice" ∈ load_usernames (" alice \nbob\n").data ∧
      ("alice" ≠ "" ∧ stripChars "alice".data = "alice".data) :=
  ⟨by decide, load_usernames_normalized (" alice \nbob\n").data "alice" (by decide)⟩

theorem translateNewlines_eq_self :
    ∀ (cs : List Char), '\r' ∉ cs → translateNewlines cs = cs
  | [], _ => rfl
  | [c], h => by
    have hc : c ≠ '\r' := fun hc => h (hc ▸ List.mem_cons_self c [])
    rw [translateNewlines, if_neg hc]
  | c :: c₂ :: cs, h => by
    have hc : c ≠ '\r' := fun hc => h (hc ▸ List.mem_cons_self c (c₂ :: cs))
    have hcs : '\r' ∉ c₂ :: cs := fun hm => h (List.mem_cons_of_mem c hm)
    rw [translateNewlines, if_neg hc, translateNewlines_eq_self (c₂ :: cs) hcs]

theorem cr_not_mem_joinChars :
    ∀ (ls : List (List Char)), (∀ l ∈ ls, '\r' ∉ l) → '\r' ∉ joinChars ls := by
  intro ls
  induction ls with
  | nil => intro _; simp [joinChars]
  | cons l ls ih =>
    intro h
    cases ls with
    | nil =>
      rw [joinChars]
      exact h l (List.mem_cons_self l [])
    | cons l₂ ls₂ =>
      rw [joinChars]
      intro hmem
      rcases List.mem_append.mp hmem with h1 | h2
      · exact h l (List.mem_cons_self l _) h1
      · rcases List.mem_cons.mp h2 with heq | h3
        · exact absurd heq (by decide)
        · exact ih (fun x hx => h x (List.mem_cons_of_mem l hx)) h3

/-- C6 counterexample: the master set containing only the empty identifier
writes as empty file content, which the Diff loader reads back as the empty
set — so the write/read round trip is not the identity on every master set. -/
theorem snapshot_roundtrip_counterexample :
    load_usernames (writeMaster {""}) = ∅ ∧ ((∅ : Finset String) ≠ {""}) := by
  constructor
  · have h1 : writeMaster {""} = [] := by
      rw [writeMaster, sortedLines, Finset.sort_singleton]
      rfl
    rw [h1]
    decide
  · decide

/-- C6 (amended): for every master set whose identifiers are nonempty,
contain no newline and no carriage-return character (the code points
universal-newline reading splits lines on), and carry no leading or trailing
whitespace in the `str.strip()` sense, writing the snapshot file (sorted,
newline-delimited) and reading it back with the Diff loader yields an
identical set of identifiers — independent of any insertion order, since the
model's `Finset` is already order-free. -/
theorem snapshot_roundtrip (m : Finset String)
    (h : ∀ u ∈ m,
      u.data ≠ [] ∧ stripChars u.data = u.data ∧ '\n' ∉ u.data ∧ '\r' ∉ u.data) :
    load_usernames (writeMaster m) = m := by
  by_cases hm : m = ∅
  · subst hm
    rw [writeMaster_empty]
    decide
  · have hLfin : (sortedLines m).toFinset = m := Finset.sort_toFinset _ m
    have hmem : ∀ u ∈ sortedLines m, u ∈ m := by
      intro u hu
      rw [← hLfin]
      exact List.mem_toFinset.mpr hu
    have hLne : sortedLines m ≠ [] := by
      intro hnil
      exact hm (by rw [← hLfin, hnil]; rfl)
    have hlsne : (sortedLines m).map String.data ≠ [] := by
      simpa using hLne
    have hnl : ∀ l ∈ (sortedLines m).map String.data, '\n' ∉ l := by
      intro l hl
      obtain ⟨u, hu, rfl⟩ := List.mem_map.mp hl
      exact (h u (hmem u hu)).2.2.1
    have hnr : '\r' ∉ joinChars ((sortedLines m).map String.data) := by
      apply cr_not_mem_joinChars
      intro l hl
      obtain ⟨u, hu, rfl⟩ := List.mem_map.mp hl
      exact (h u (hmem u hu)).2.2.2
    rw [load_usernames, writeMaster, translateNewlines_eq_self _ hnr,
      splitNL_joinChars _ hlsne hnl]
    have h1 : ((sortedLines m).map String.data).map stripChars
        = (sortedLines m).map String.data := by
      rw [List.map_map]
      exact List.map_congr_left (fun u hu => (h u (hmem u hu)).2.1)
    have h2 : ((sortedLines m).map String.data).filter (fun l => !l.isEmpty)
        = (sortedLines m).map String.data := by
      rw [List.filter_eq_self]
      intro l hl
      obtain ⟨u, hu, rfl⟩ := List.mem_map.mp hl
      simpa using (h u (hmem u hu)).1
    have h3 : ((sortedLines m).map String.data).map String.mk = sortedLines m := by
      rw [List.map_map]
      exact List.map_id'' (fun u => rfl) _
    rw [h1, h2, h3]
    exact hLfin

/-- Witness for C6's amended round trip on a concrete two-element master
set of clean identifiers. -/
theorem snapshot_roundtrip_witness :
    (∀ u ∈ ({"alice", "bob"} : Finset String),
        u.data ≠ [] ∧ stripChars u.data = u.data ∧ '\n' ∉ u.data ∧ '\r' ∉ u.data) ∧
      load_usernames (writeMaster {"alice", "bob"}) = {"alice", "bob"} :=
  ⟨by decide, snapshot_roundtrip {"alice", "bob"} (by decide)⟩
